/-
Verification of the aggregation-and-search engine of the personal-news-feed
repository (src/logic.js, class RSSAggregator).

The JavaScript code is shallowly embedded: every method of RSSAggregator that
the claims touch is translated into an executable Lean definition over explicit
state.  JavaScript semantics that the code relies on are made explicit:

* Strings are Lean `String`s; `toLowerCase` is the per-character ASCII
  lowering `strToLower` (the engine only ever compares ASCII data in the
  examples).
* JavaScript string truthiness (`!s` holds exactly for the empty string,
  `a || b` picks the first truthy operand) is modelled by `jsTruthy`/`jsOrS`.
* `Array.prototype.sort` with comparator `(a, b) => k(b) - k(a)` is, per
  ES2019, a stable sort descending by `k`; the embedding uses the insertion
  sort `sortDescBy`, which produces exactly the stable descending ordering
  (sortedness, stability and permutation are proved below, which pins the
  output uniquely).
* `Array.prototype.slice (o, o + l)` with `o, l ≥ 0` is `List.drop o` then
  `List.take l`.
* Optional / missing fields of parsed RSS items are `Option`s; nullable
  results are `Option`s.
-/
import Mathlib

/-! ## JavaScript string semantics -/

/-- JavaScript truthiness of an optional string: `undefined`, `null` and the
empty string are falsy, every other string is truthy. -/
def jsTruthy : Option String → Bool
  | none => false
  | some s => s ≠ ""

/-- JavaScript `a || b` on optional strings: the first truthy operand,
otherwise `b`'s value (possibly falsy). -/
def jsOrS (a b : Option String) : Option String :=
  if jsTruthy a then a else b

/-- JavaScript `a || b || ''` collapsed to a plain string. -/
def jsOrSS (a b : Option String) : String :=
  match jsOrS a b with
  | some s => s
  | none => ""

/-- Decides `listPrefixOf sub l` : is `sub` a prefix of `l`? -/
def listPrefixOf : List Char → List Char → Bool
  | [], _ => true
  | _ :: _, [] => false
  | c :: cs, d :: ds => c == d && listPrefixOf cs ds

/-- Decides `listInfixOf sub hay` : is `sub` a contiguous run inside `hay`? -/
def listInfixOf (sub : List Char) : List Char → Bool
  | [] => listPrefixOf sub []
  | c :: rest => listPrefixOf sub (c :: rest) || listInfixOf sub rest

/-- JavaScript `haystack.includes(needle)`: substring test.  The empty needle
is a substring of everything, as in JavaScript. -/
def strIncludes (hay sub : String) : Bool :=
  listInfixOf sub.toList hay.toList

/-- JavaScript `s.toLowerCase()`, character by character (the engine only
lowers ASCII data; `Char.toLower` is the ASCII lowering). -/
def strToLower (s : String) : String :=
  (s.toList.map Char.toLower).asString

/-- JavaScript `s.trim()`: drop whitespace from both ends. -/
def strTrim (s : String) : String :=
  ((s.toList.dropWhile Char.isWhitespace).reverse.dropWhile
    Char.isWhitespace).reverse.asString

/-- JavaScript `s.startsWith(pre)`. -/
def strStartsWith (s pre : String) : Bool :=
  listPrefixOf pre.toList s.toList

/-- One step of `jsSplitWs`: accumulate the current field (reversed in
`acc`); `inSep` records that the previous character was whitespace, so that
a maximal whitespace run acts as a single separator.  Splitting a string on
the regex `\s+` as JavaScript `String.split` does: maximal whitespace runs
separate fields; a leading (resp. trailing) whitespace run contributes a
leading (resp. trailing) empty field. -/
def jsSplitWsAux : Bool → List Char → List Char → List (List Char)
  | _, [], acc => [acc.reverse]
  | inSep, c :: rest, acc =>
    if c.isWhitespace then
      if inSep then jsSplitWsAux true rest acc
      else acc.reverse :: jsSplitWsAux true rest []
    else jsSplitWsAux false rest (c :: acc)

/-- JavaScript `s.split(/\s+/)`. -/
def jsSplitWs (s : String) : List String :=
  (jsSplitWsAux false s.toList []).map List.asString

/-! ## Data model

`Article` is the canonical record built in `fetchAllFeeds` (src/logic.js,
lines 516–527): title, url, snippet, content, imageUrl, source, category,
keywords, pubDate, fetchedAt.  Timestamps are milliseconds since the epoch
(the numeric value of a JavaScript `Date`). -/

structure Article where
  title : String
  url : String
  snippet : String
  content : String
  imageUrl : Option String
  source : String
  category : String
  keywords : List String
  pubDate : Int
  fetchedAt : Int
deriving DecidableEq, Repr

/-- One entry of feeds.json: url, category, source name, keywords. -/
structure FeedConfig where
  url : String
  category : String
  source : String
  keywords : List String
deriving DecidableEq, Repr

/-- Aggregator state: the fields of the RSSAggregator instance that the
claims are about (`this.articles`, `this.feeds`, `this.lastUpdate`). -/
structure AggState where
  articles : List Article
  feeds : List FeedConfig
  lastUpdate : Option Int
deriving DecidableEq, Repr

/-! ## removeDuplicates (src/logic.js, lines 557–566)

`removeDuplicates` filters the array, keeping an article iff its url has not
been seen before; `seen` is the set of urls already kept. -/

/-- The filter pass of `removeDuplicates`, with the `seen` set explicit. -/
def removeDupGo (seen : List String) : List Article → List Article
  | [] => []
  | a :: rest =>
    if a.url ∈ seen then removeDupGo seen rest
    else a :: removeDupGo (a.url :: seen) rest

/-- Method `removeDuplicates(articles)`: keep the first occurrence of every url. -/
def removeDuplicates (articles : List Article) : List Article :=
  removeDupGo [] articles

/-! ## Stable descending sort

`uniqueArticles.sort((a, b) => b.pubDate - a.pubDate)` and
`.sort((a, b) => b.score - a.score)` are stable sorts (ES2019) descending by
an integer key.  `sortDescBy` is a stable insertion sort with the same
comparator; stability and sortedness proofs below pin its output to the one a
stable sort must produce. -/

/-- Insert `a` into a list sorted descending by `key`, after every element
whose key is ≥ `key a` (so that elements equal to `a` that were inserted
earlier stay in front: stability). -/
def insDesc {α : Type} (key : α → Int) (a : α) : List α → List α
  | [] => [a]
  | b :: rest =>
    if key a ≤ key b then b :: insDesc key a rest
    else a :: b :: rest

/-- Stable sort, descending by `key`: insert the elements left to right. -/
def sortDescBy {α : Type} (key : α → Int) (l : List α) : List α :=
  l.foldl (fun acc a => insDesc key a acc) []

/-! ## search (src/logic.js, lines 583–642) -/

/-- The score the search loop assigns to one article, given the moment of the
search `now` (ms) and the raw query.  Translated statement by statement from
src/logic.js lines 589–631:

* `queryWords = query.toLowerCase().split(/\s+/)`,
* +10 per query word that is a substring of the lower-cased title,
* +5 per query word that is a substring of the lower-cased snippet,
* +3 per (keyword, query word) pair where either side contains the other,
* +7 if the lower-cased category contains the whole lower-cased query,
* +2 if the article is younger than one day, else +1 if younger than 7 days
  (`ageInDays < 1` on the float quotient is exact for integer millisecond
  ages, so it is rendered as `now - pubDate < 86400000`).
-/
def scoreArticle (now : Int) (query : String) (a : Article) : Int :=
  let queryLower := strToLower query
  let queryWords := jsSplitWs queryLower
  let titleLower := strToLower a.title
  let s1 := queryWords.foldl
    (fun sc w => if strIncludes titleLower w then sc + 10 else sc) 0
  let snippetLower := strToLower a.snippet
  let s2 := queryWords.foldl
    (fun sc w => if strIncludes snippetLower w then sc + 5 else sc) s1
  let s3 := a.keywords.foldl
    (fun sc kw => queryWords.foldl
      (fun sc2 w =>
        if strIncludes (strToLower kw) w || strIncludes w (strToLower kw)
        then sc2 + 3 else sc2) sc) s2
  let s4 := if strIncludes (strToLower a.category) queryLower then s3 + 7 else s3
  let age := now - a.pubDate
  if age < 86400000 then s4 + 2
  else if age < 7 * 86400000 then s4 + 1
  else s4

/-- The full ranked result sequence of a non-empty query: score every article,
keep the ones with positive score, stable-sort them descending by score, and
project back to articles (the pipeline of src/logic.js lines 593–639 without
the `slice`). -/
def rankedResults (articles : List Article) (now : Int) (query : String) :
    List Article :=
  let scored := articles.map (fun a => (a, scoreArticle now query a))
  let filtered := scored.filter (fun p => 0 < p.2)
  (sortDescBy (fun p => p.2) filtered).map (fun p => p.1)

/-- Method `search(query, limit, offset)` (src/logic.js lines 583–642).
Empty or whitespace-only query: `return this.articles.slice(0, limit)` —
note the offset is not consulted on this branch.  Otherwise: score, filter
positive, sort by score descending (stable), `slice(offset, offset + limit)`,
and project to articles. -/
def search (articles : List Article) (now : Int) (query : String)
    (limit offset : Nat) : List Article :=
  if query = "" ∨ strTrim query = "" then
    articles.take limit
  else
    let scored := articles.map (fun a => (a, scoreArticle now query a))
    let filtered := scored.filter (fun p => 0 < p.2)
    ((((sortDescBy (fun p => p.2) filtered).drop offset).take limit).map
      (fun p => p.1))

/-! ## Raw feed items and image extraction (src/logic.js, lines 454–484)

rss-parser exposes `media:content` / `media:thumbnail` custom fields whose
`url` / `medium` XML attributes the code reads through `m?.$?.url || m?.url`
(resp. `?.medium`).  The embedding models each media entry by the resolved
value of that expression: `url`/`medium` is the attribute value when one is
present, `none` otherwise.  `media:content` may be a single object or an
array; the code normalises to an array, so the model holds a list. -/

structure MediaEntry where
  url : Option String
  medium : Option String
deriving DecidableEq, Repr

structure MediaThumbnail where
  url : Option String
deriving DecidableEq, Repr

structure Enclosure where
  url : Option String
  type : Option String
deriving DecidableEq, Repr

/-- A raw parsed feed entry: the fields of the rss-parser item that
`fetchAllFeeds` and `extractImageFromItem` read.  `pubDate` is the parsed
millisecond value of a present, truthy date string (`none` when the field is
missing or empty). -/
structure RawItem where
  mediaContent : Option (List MediaEntry)
  mediaThumbnail : Option MediaThumbnail
  enclosure : Option Enclosure
  content : Option String
  description : Option String
  contentSnippet : Option String
  title : Option String
  link : Option String
  guid : Option String
  pubDate : Option Int
deriving DecidableEq, Repr

/-- Is the character one of the two quote characters of the image regex? -/
def isQuoteChar (c : Char) : Bool :=
  c == '"' || c == '\''

/-- Match `src=["']([^"']+)["']` (case-insensitive on the literal `src=`)
at the very beginning of `s`; return the captured group.  The capture
`[^"']+` is greedy, and the following `["']` forces it to stop exactly at
the first quote, so `takeWhile`/`dropWhile` render it exactly. -/
def srcMatch (s : List Char) : Option (List Char) :=
  if (s.take 4).map Char.toLower = ['s', 'r', 'c', '='] then
    match s.drop 4 with
    | [] => none
    | q :: rest =>
      if isQuoteChar q then
        let cap := rest.takeWhile (fun c => !(isQuoteChar c))
        match rest.dropWhile (fun c => !(isQuoteChar c)) with
        | [] => none
        | _ :: _ => if cap.isEmpty then none else some cap
      else none
  else none

/-- Backtracking for the greedy `[^>]+` of the image regex: with `afterTag`
the text following `<img`, try gap lengths `k, k-1, …, 1` (longest first, as
a greedy group backtracks) and return the first `srcMatch` that succeeds
after the gap. -/
def tryBodyFrom (afterTag : List Char) : Nat → Option (List Char)
  | 0 => none
  | k + 1 =>
    match srcMatch (afterTag.drop (k + 1)) with
    | some cap => some cap
    | none => tryBodyFrom afterTag k

/-- Leftmost match of `/<img[^>]+src=["']([^"']+)["']/i` over the character
list: try every start position from the left; at a position starting with
`<img`, resolve the greedy `[^>]+` gap longest-first. -/
def findImgSrcAux : List Char → Option (List Char)
  | [] => none
  | c :: rest =>
    if ((c :: rest).take 4).map Char.toLower = ['<', 'i', 'm', 'g'] then
      let afterTag := rest.drop 3
      match tryBodyFrom afterTag (afterTag.takeWhile (fun ch => ch ≠ '>')).length with
      | some cap => some cap
      | none => findImgSrcAux rest
    else findImgSrcAux rest

/-- Computes `html.match(/<img[^>]+src=["']([^"']+)["']/i)?.[1]` as a string. -/
def findImgSrc (html : String) : Option String :=
  (findImgSrcAux html.toList).map List.asString

/-- Stage (a) of `extractImageFromItem` (lines 456–464): the first
media:content entry with a truthy url whose medium is falsy (absent/empty)
or equals `"image"`. -/
def mediaContentImage (item : RawItem) : Option String :=
  match item.mediaContent with
  | none => none
  | some entries =>
    entries.findSome? fun m =>
      if jsTruthy m.url && (!(jsTruthy m.medium) || m.medium == some "image")
      then m.url else none

/-- Stage (b) (lines 467–471): the media:thumbnail url, if truthy. -/
def mediaThumbnailImage (item : RawItem) : Option String :=
  match item.mediaThumbnail with
  | none => none
  | some th => if jsTruthy th.url then th.url else none

/-- Stage (c) (lines 474–476): the enclosure url, if truthy and the declared
MIME type starts with `image/`. -/
def enclosureImage (item : RawItem) : Option String :=
  match item.enclosure with
  | none => none
  | some enc =>
    if jsTruthy enc.url &&
        (match enc.type with
         | some t => strStartsWith t "image/"
         | none => false)
    then enc.url else none

/-- Stage (d) (lines 479–481): first `<img src>` in
`item.content || item.description || ''`. -/
def htmlImage (item : RawItem) : Option String :=
  findImgSrc (jsOrSS item.content item.description)

/-- Method `extractImageFromItem(item)` (src/logic.js, lines 454–484): each stage is
a block ending in a conditional `return`; a stage that does not return falls
through to the next one, and the final fallback returns `null`. -/
def extractImageFromItem (item : RawItem) : Option String :=
  match mediaContentImage item with
  | some u => some u
  | none =>
    match mediaThumbnailImage item with
    | some u => some u
    | none =>
      match enclosureImage item with
      | some u => some u
      | none => htmlImage item

/-! ## cleanDescription (src/logic.js, lines 568–581) -/

/-- Drop characters up to and including the first `>`; `none` if there is no
`>` (in which case the tag regex `<[^>]*>` has no match starting here). -/
def dropThroughGt : List Char → Option (List Char)
  | [] => none
  | c :: rest => if c = '>' then some rest else dropThroughGt rest

/-- Computes `text.replace(/<[^>]*>/g, '')`, fuel-indexed so that the recursion is
structural (each step consumes at least one character, so `fuel = length`
suffices; the fuel-exhausted arm is never reached): delete every maximal
`<…>` span (the greedy `[^>]*` cannot cross a `>`, so each match runs to
the first `>`); a `<` with no later `>` matches nothing and is kept. -/
def stripTagsFuel : Nat → List Char → List Char
  | 0, l => l
  | _ + 1, [] => []
  | fuel + 1, c :: rest =>
    if c = '<' then
      match dropThroughGt rest with
      | some rest2 => stripTagsFuel fuel rest2
      | none => c :: stripTagsFuel fuel rest
    else c :: stripTagsFuel fuel rest

/-- Computes `text.replace(/<[^>]*>/g, '')`. -/
def stripTags (l : List Char) : List Char :=
  stripTagsFuel l.length l

/-- JavaScript `s.replace(pat, repl)` with a `/…/g` literal pattern,
fuel-indexed for structural recursion: replace every non-overlapping
occurrence, left to right, never rescanning the replacement text. -/
def replaceAllFuel (pat repl : List Char) : Nat → List Char → List Char
  | 0, s => s
  | _ + 1, [] => []
  | fuel + 1, c :: rest =>
    if listPrefixOf pat (c :: rest) then
      repl ++ replaceAllFuel pat repl fuel (rest.drop (pat.length - 1))
    else
      c :: replaceAllFuel pat repl fuel rest

/-- String version of `replaceAllFuel`. -/
def replaceAllStr (pat repl s : String) : String :=
  (replaceAllFuel pat.toList repl.toList s.toList.length s.toList).asString

/-- Method `cleanDescription(text)` (src/logic.js, lines 568–581): strip tags,
decode the six entities in source order (the passes run sequentially, so a
`&amp;lt;` decodes twice, as in the code), trim, truncate to 300
characters. -/
def cleanDescription (text : String) : String :=
  let cleaned := (stripTags text.toList).asString
  let cleaned := replaceAllStr "&nbsp;" " " cleaned
  let cleaned := replaceAllStr "&amp;" "&" cleaned
  let cleaned := replaceAllStr "&lt;" "<" cleaned
  let cleaned := replaceAllStr "&gt;" ">" cleaned
  let cleaned := replaceAllStr "&quot;" "\"" cleaned
  let cleaned := replaceAllStr "&#39;" "'" cleaned
  ((strTrim cleaned).toList.take 300).asString

/-! ## fetchAllFeeds (src/logic.js, lines 498–555) -/

/-- JavaScript `a || d` for a string `a` and a non-empty default `d`. -/
def jsOrDefault (a : Option String) (d : String) : String :=
  match a with
  | some s => if s = "" then d else s
  | none => d

/-- The article pushed for one raw item (src/logic.js, lines 513–527);
`none` when `item.link || item.guid || ''` is empty (`if (!url) return;`).
`now` is the clock reading used for `new Date()`. -/
def normalizeItem (now : Int) (fc : FeedConfig) (item : RawItem) :
    Option Article :=
  let url := jsOrSS item.link item.guid
  if url = "" then none
  else some
    { title := jsOrDefault item.title "Untitled"
      url := url
      snippet := cleanDescription (jsOrSS item.contentSnippet item.description)
      content := jsOrSS item.content item.description
      imageUrl := extractImageFromItem item
      source := fc.source
      category := fc.category
      keywords := fc.keywords
      pubDate := match item.pubDate with | some t => t | none => now
      fetchedAt := now }

/-- The candidate set of one refresh cycle (`newArticles` in the code): the
normalized articles of every fulfilled feed, in registry order. -/
def candidateArticles (feeds : List FeedConfig)
    (outcomes : List (Option (List RawItem))) (now : Int) : List Article :=
  (feeds.zip outcomes).foldl
    (fun acc p =>
      match p.2 with
      | some items => acc ++ items.filterMap (normalizeItem now p.1)
      | none => acc) ([] : List Article)

/-- Method `fetchAllFeeds()` (src/logic.js, lines 498–555).  `outcomes` is the
`Promise.allSettled` result, one entry per configured feed in registry
order: `some items` for a fulfilled fetch, `none` for a rejected one.
The loop collects the normalized articles of every fulfilled feed, counts
successes and failures, deduplicates by url, sorts descending by
publication date (stable, per ES2019) and assigns the result to
`this.articles`; `this.lastUpdate = new Date()`.  Returns the new state
together with `(successCount, errorCount)`. -/
def fetchAllFeeds (st : AggState) (outcomes : List (Option (List RawItem)))
    (now : Int) : AggState × Nat × Nat :=
  let pairs := st.feeds.zip outcomes
  let newArticles := candidateArticles st.feeds outcomes now
  let successCount := (pairs.filter (fun p => p.2.isSome)).length
  let errorCount := (pairs.filter (fun p => p.2.isNone)).length
  let uniqueArticles := removeDuplicates newArticles
  let sorted := sortDescBy (fun a => a.pubDate) uniqueArticles
  ({ st with articles := sorted, lastUpdate := some now },
   successCount, errorCount)

/-- Wraps `fetchAllFeeds` as the promise-level contract: the async method contains
no `throw`, `Promise.allSettled` never rejects, and every remaining
statement is total, so the promise always fulfills — the translation always
returns `Except.ok`. -/
def fetchAllFeedsE (st : AggState) (outcomes : List (Option (List RawItem)))
    (now : Int) : Except String (AggState × Nat × Nat) :=
  Except.ok (fetchAllFeeds st outcomes now)

/-- Runs `search` as a state transformer: the method reads `this.articles` and
assigns to no field of the aggregator, so its translation returns the state
it was given.  This definition exists to express the frame property of the
method (claim C10): the result paired with the unchanged state. -/
def searchSt (st : AggState) (now : Int) (query : String)
    (limit offset : Nat) : List Article × AggState :=
  (search st.articles now query limit offset, st)

/-! ## Specification-side score formulas

Two closed formulas for the score, to compare against `scoreArticle`:
`specScorePerWord` counts every query-word occurrence (what the code's
`forEach` loops do); `specScoreDistinct` counts each distinct query word
once (the reading "per distinct query word" of claim C3). -/

/-- Score as a closed sum over the query-word list, occurrences counted with
multiplicity. -/
def specScorePerWord (now : Int) (query : String) (a : Article) : Int :=
  let queryLower := strToLower query
  let words := jsSplitWs queryLower
  10 * ((words.filter (fun w => strIncludes (strToLower a.title) w)).length : Int)
    + 5 * ((words.filter (fun w => strIncludes (strToLower a.snippet) w)).length : Int)
    + 3 * (((a.keywords.map (fun kw =>
        (words.filter (fun w =>
          strIncludes (strToLower kw) w || strIncludes w (strToLower kw))).length)).sum : Int))
    + (if strIncludes (strToLower a.category) queryLower then 7 else 0)
    + (if now - a.pubDate < 86400000 then 2
       else if now - a.pubDate < 7 * 86400000 then 1 else 0)

/-- The formula of claim C3, literally: contributions counted per DISTINCT
query word. -/
def specScoreDistinct (now : Int) (query : String) (a : Article) : Int :=
  let queryLower := strToLower query
  let words := (jsSplitWs queryLower).dedup
  10 * ((words.filter (fun w => strIncludes (strToLower a.title) w)).length : Int)
    + 5 * ((words.filter (fun w => strIncludes (strToLower a.snippet) w)).length : Int)
    + 3 * (((a.keywords.map (fun kw =>
        (words.filter (fun w =>
          strIncludes (strToLower kw) w || strIncludes w (strToLower kw))).length)).sum : Int))
    + (if strIncludes (strToLower a.category) queryLower then 7 else 0)
    + (if now - a.pubDate < 86400000 then 2
       else if now - a.pubDate < 7 * 86400000 then 1 else 0)

/-! ## Persistence cache (src/logic.js, lines 655–685)

`saveToFile` writes `JSON.stringify({articles, lastUpdate})`;
`JSON.stringify` serializes every `Date` through `Date.prototype.toJSON`,
i.e. `toISOString()`, and round-trips strings, string arrays and `null`
exactly.  `loadFromFile` parses the file and rebuilds each article with
`new Date(a.pubDate)` / `new Date(a.fetchedAt)` — ECMA-262 date-time string
parsing of the very format `toISOString` prints.

The embedding keeps the JSON-exact fields as they are and models each
serialized `Date` by the field tuple of its ISO-8601 string (`JsonDate`:
proleptic-Gregorian year, month, day, hour, minute, second, millisecond —
the fixed-width decimal text layer of the string is trivially lossless and
is not re-modelled).  `msToJsonDate` is ECMA-262's `YearFromTime` /
`MonthFromTime` / `DateFromTime` / `TimeWithinDay` decomposition of a
millisecond time value, computed with the standard era-based civil-calendar
algorithm; `jsonDateToMs` is `MakeDay`/`MakeTime`/`MakeDate` as used when
parsing the string back.  An `Article` in the model always carries a finite
millisecond timestamp (an invalid `Date` — NaN — is outside the model; the
code would serialize it as `null`). -/

/-- Days-in-era start of year-of-era `yoe ∈ [0, 399]` (1 March based):
`365·yoe + ⌊yoe/4⌋ − ⌊yoe/100⌋`. -/
def yearStartN (yoe : Nat) : Nat :=
  365 * yoe + yoe / 4 - yoe / 100

/-- Year-of-era of a day-of-era `doe ∈ [0, 146096]`. -/
def yoeOfN (doe : Nat) : Nat :=
  (doe - doe / 1460 + doe / 36524 - doe / 146096) / 365

/-- Day-of-year (1 March based) of a day-of-era. -/
def doyOfN (doe : Nat) : Nat :=
  doe - yearStartN (yoeOfN doe)

/-- March-based month index `mp ∈ [0, 11]` of a day-of-year. -/
def mpOfDoy (doy : Nat) : Nat :=
  (5 * doy + 2) / 153

/-- Day of month `∈ [1, 31]` of a day-of-year. -/
def dayOfDoy (doy : Nat) : Nat :=
  doy - (153 * mpOfDoy doy + 2) / 5 + 1

/-- Civil month `∈ [1, 12]` of a day-of-year. -/
def monthOfDoy (doy : Nat) : Nat :=
  if mpOfDoy doy < 10 then mpOfDoy doy + 3 else mpOfDoy doy - 9

/-- March-based month index of a civil month. -/
def mpOfMonth (m : Nat) : Nat :=
  if 2 < m then m - 3 else m + 9

/-- Civil (proleptic Gregorian) date of a day count relative to 1970-01-01:
`(year, month ∈ [1,12], day ∈ [1,31])`. -/
def civilFromDays (z : Int) : Int × Nat × Nat :=
  let z2 := z + 719468
  let era : Int := z2 / 146097
  let doe : Nat := (z2 - era * 146097).toNat
  let y : Int := (yoeOfN doe : Int) + era * 400
  (if monthOfDoy (doyOfN doe) ≤ 2 then y + 1 else y,
   monthOfDoy (doyOfN doe), dayOfDoy (doyOfN doe))

/-- Day count relative to 1970-01-01 of a civil date (ECMA-262 `MakeDay`). -/
def daysFromCivil (y : Int) (m d : Nat) : Int :=
  let y2 := if m ≤ 2 then y - 1 else y
  let era : Int := y2 / 400
  let yoe : Nat := (y2 - era * 400).toNat
  let doe : Nat := yearStartN yoe + ((153 * mpOfMonth m + 2) / 5 + d - 1)
  era * 146097 + (doe : Int) - 719468

/-- The field tuple of the ISO-8601 string `Date.prototype.toISOString`
prints (always UTC, millisecond precision). -/
structure JsonDate where
  year : Int
  month : Nat
  day : Nat
  hour : Nat
  minute : Nat
  second : Nat
  ms : Nat
deriving DecidableEq, Repr

/-- Serialize a millisecond time value the way `toISOString` does:
split off the day number (floor division) and the millisecond of day,
convert the day number to a civil date and the remainder to h:m:s.ms. -/
def msToJsonDate (t : Int) : JsonDate :=
  let days := t / 86400000
  let r : Nat := (t % 86400000).toNat
  let c := civilFromDays days
  { year := c.1
    month := c.2.1
    day := c.2.2
    hour := r / 3600000
    minute := r % 3600000 / 60000
    second := r % 60000 / 1000
    ms := r % 1000 }

/-- Parse the field tuple back to a millisecond time value, as
`new Date(isoString)` does (`MakeDate(MakeDay(y,m,d), MakeTime(h,mi,s,ms))`). -/
def jsonDateToMs (d : JsonDate) : Int :=
  daysFromCivil d.year d.month d.day * 86400000 +
    (((d.hour * 60 + d.minute) * 60 + d.second) * 1000 + d.ms)

/-- One serialized article in articles-cache.json: every JSON-exact field
kept, the two timestamps as serialized dates. -/
structure CachedArticle where
  title : String
  url : String
  snippet : String
  content : String
  imageUrl : Option String
  source : String
  category : String
  keywords : List String
  pubDate : JsonDate
  fetchedAt : JsonDate
deriving DecidableEq, Repr

/-- The cache file written by `saveToFile`: `{articles, lastUpdate}`. -/
structure CacheFile where
  articles : List CachedArticle
  lastUpdate : Option JsonDate
deriving DecidableEq, Repr

/-- Serialization of one article inside `JSON.stringify` (Dates via
`toJSON`, everything else exact). -/
def articleToCache (a : Article) : CachedArticle :=
  { title := a.title
    url := a.url
    snippet := a.snippet
    content := a.content
    imageUrl := a.imageUrl
    source := a.source
    category := a.category
    keywords := a.keywords
    pubDate := msToJsonDate a.pubDate
    fetchedAt := msToJsonDate a.fetchedAt }

/-- Models the per-article rebuild of `loadFromFile`: `{...a, pubDate: new
Date(a.pubDate), fetchedAt: new Date(a.fetchedAt)}`. -/
def cacheToArticle (c : CachedArticle) : Article :=
  { title := c.title
    url := c.url
    snippet := c.snippet
    content := c.content
    imageUrl := c.imageUrl
    source := c.source
    category := c.category
    keywords := c.keywords
    pubDate := jsonDateToMs c.pubDate
    fetchedAt := jsonDateToMs c.fetchedAt }

/-- Method `saveToFile()` (src/logic.js, lines 655–666): serialize
`{articles: this.articles, lastUpdate: this.lastUpdate}`. -/
def saveToFile (articles : List Article) (lastUpdate : Option Int) :
    CacheFile :=
  { articles := articles.map articleToCache
    lastUpdate := lastUpdate.map msToJsonDate }

/-- Method `loadFromFile()` (src/logic.js, lines 669–685) on a present,
well-formed cache file: rebuild every article and `this.lastUpdate = new
Date(parsed.lastUpdate)` (a serialized `null` parses to the epoch: `new
Date(null)` is time value 0). -/
def loadFromFile (f : CacheFile) : List Article × Option Int :=
  (f.articles.map cacheToArticle,
   some (match f.lastUpdate with
         | some d => jsonDateToMs d
         | none => 0))

/-! ## Concrete fixtures for witnesses and counterexamples

`exArt1`/`exArt2` are the two articles of the worked example in the spec
(§8): an "AI breakthrough" technology article and a "Sports update" sports
article; `exNow` is a search moment far (1000 days) after both publication
dates, so neither gets a recency boost. -/

def exArt1 : Article :=
  { title := "AI breakthrough"
    url := "http://example.org/ai"
    snippet := ""
    content := ""
    imageUrl := none
    source := "TechSrc"
    category := "technology"
    keywords := ["ai", "tech"]
    pubDate := 0
    fetchedAt := 0 }

def exArt2 : Article :=
  { title := "Sports update"
    url := "http://example.org/sports"
    snippet := ""
    content := ""
    imageUrl := none
    source := "SportSrc"
    category := "sports"
    keywords := ["football"]
    pubDate := 0
    fetchedAt := 0 }

def exNow : Int := 1000 * 86400000

/-- A feed-source entry for the refresh fixtures. -/
def exFeed : FeedConfig :=
  { url := "http://example.org/feed.xml"
    category := "technology"
    source := "TechSrc"
    keywords := ["ai"] }

/-- A raw item carrying both a media:thumbnail and an `<img>` inside its
description (the worked image-extraction example of the spec, §8). -/
def exThumbItem : RawItem :=
  { mediaContent := none
    mediaThumbnail := some { url := some "http://example.org/thumb.jpg" }
    enclosure := none
    content := none
    description := some "<p>text <img src=\"http://example.org/inline.png\"></p>"
    contentSnippet := none
    title := some "With thumbnail"
    link := some "http://example.org/t"
    guid := none
    pubDate := some 0 }

/-! ## Helper lemmas: fold counting -/

/-- A `forEach`-style accumulation that adds `c` whenever `p` holds equals
the initial value plus `c` times the number of matches. -/
theorem foldlScoreCount (p : String → Bool) (c : Int) (l : List String) :
    ∀ init : Int,
      l.foldl (fun sc w => if p w then sc + c else sc) init
        = init + c * ((l.filter p).length : Int) := by
  induction l with
  | nil => intro init; simp
  | cons w ws ih =>
    intro init
    cases hw : p w
    · simp only [List.foldl_cons, hw, Bool.false_eq_true, if_false]
      rw [ih]
      simp [List.filter_cons, hw]
    · simp only [List.foldl_cons, hw, if_true, List.filter_cons]
      rw [ih]
      simp only [hw, if_true, List.length_cons]
      push_cast
      ring

/-- The nested keyword/word accumulation equals the initial value plus 3
times the number of matching (keyword, word) pairs. -/
theorem foldlKeywordCount (q : String → String → Bool) (words : List String)
    (ks : List String) :
    ∀ init : Int,
      ks.foldl (fun sc kw => words.foldl
          (fun sc2 w => if q kw w then sc2 + 3 else sc2) sc) init
        = init + 3 * (((ks.map (fun kw => (words.filter (q kw)).length)).sum : Int)) := by
  induction ks with
  | nil => intro init; simp
  | cons kw ks ih =>
    intro init
    simp only [List.foldl_cons, List.map_cons, List.sum_cons]
    rw [foldlScoreCount (q kw) 3 words init, ih]
    push_cast
    ring

/-! ## Helper lemmas: the stable descending insertion sort -/

/-- Inserting with `insDesc` gives a permutation: the result is a permutation of
`a :: l`. -/
theorem insDesc_perm {α : Type} (key : α → Int) (a : α) (l : List α) :
    List.Perm (insDesc key a l) (a :: l) := by
  induction l with
  | nil => simp [insDesc]
  | cons b rest ih =>
    by_cases h : key a ≤ key b
    · simp only [insDesc, if_pos h]
      exact (ih.cons b).trans (List.Perm.swap a b rest)
    · simp [insDesc, if_neg h]

/-- Inserting with `insDesc` preserves descending sortedness. -/
theorem insDesc_sorted {α : Type} (key : α → Int) (a : α) (l : List α)
    (h : l.Pairwise (fun x y => key y ≤ key x)) :
    (insDesc key a l).Pairwise (fun x y => key y ≤ key x) := by
  induction l with
  | nil => simp [insDesc]
  | cons b rest ih =>
    rw [List.pairwise_cons] at h
    obtain ⟨hb, hrest⟩ := h
    by_cases hab : key a ≤ key b
    · simp only [insDesc, if_pos hab]
      rw [List.pairwise_cons]
      refine ⟨?_, ih hrest⟩
      intro x hx
      have hx2 : x ∈ a :: rest := (insDesc_perm key a rest).mem_iff.mp hx
      rcases List.mem_cons.mp hx2 with rfl | hxr
      · exact hab
      · exact hb x hxr
    · simp only [insDesc, if_neg hab]
      rw [List.pairwise_cons]
      constructor
      · intro x hx
        rcases List.mem_cons.mp hx with rfl | hxr
        · exact le_of_lt (lt_of_not_le hab)
        · exact le_trans (hb x hxr) (le_of_lt (lt_of_not_le hab))
      · rw [List.pairwise_cons]
        exact ⟨hb, hrest⟩

/-- Filtering an `insDesc` result by an exact key value: when the target
list is sorted descending, the inserted element lands after every earlier
element of the same key (stability of one insertion). -/
theorem insDesc_filter {α : Type} (key : α → Int) (t : Int) (a : α)
    (l : List α) (h : l.Pairwise (fun x y => key y ≤ key x)) :
    (insDesc key a l).filter (fun x => key x == t)
      = if key a = t then l.filter (fun x => key x == t) ++ [a]
        else l.filter (fun x => key x == t) := by
  induction l with
  | nil =>
    by_cases hat : key a = t
    · simp [insDesc, List.filter, hat]
    · simp only [insDesc, List.filter, if_neg hat]
      have : (key a == t) = false := by simp [hat]
      simp [this]
  | cons b rest ih =>
    rw [List.pairwise_cons] at h
    obtain ⟨hb, hrest⟩ := h
    by_cases hab : key a ≤ key b
    · simp only [insDesc, if_pos hab]
      rw [List.filter_cons, List.filter_cons]
      by_cases hbt : key b = t
      · simp only [hbt, beq_self_eq_true, if_pos, ih hrest]
        by_cases hat : key a = t
        · simp [hat]
        · simp [hat]
      · have : (key b == t) = false := by simp [hbt]
        simp only [this, Bool.false_eq_true, if_false, ih hrest]
    · simp only [insDesc, if_neg hab]
      have hba : key b < key a := lt_of_not_le hab
      by_cases hat : key a = t
      · have hrestnil : (b :: rest).filter (fun x => key x == t) = [] := by
          rw [List.filter_eq_nil_iff]
          intro x hx
          rcases List.mem_cons.mp hx with rfl | hxr
          · simp; omega
          · have := hb x hxr
            simp; omega
        rw [List.filter_cons]
        have : (key a == t) = true := by simp [hat]
        simp [this, hrestnil, hat]
      · rw [List.filter_cons]
        have : (key a == t) = false := by simp [hat]
        simp [this, hat]

/-- The fold of `sortDescBy` keeps the accumulator sorted. -/
theorem sortFold_sorted {α : Type} (key : α → Int) (l : List α) :
    ∀ acc : List α, acc.Pairwise (fun x y => key y ≤ key x) →
      (l.foldl (fun acc a => insDesc key a acc) acc).Pairwise
        (fun x y => key y ≤ key x) := by
  induction l with
  | nil => intro acc hacc; simpa using hacc
  | cons a l ih =>
    intro acc hacc
    simp only [List.foldl_cons]
    exact ih _ (insDesc_sorted key a acc hacc)

/-- The fold of `sortDescBy` is a permutation of accumulator ++ input. -/
theorem sortFold_perm {α : Type} (key : α → Int) (l : List α) :
    ∀ acc : List α,
      List.Perm (l.foldl (fun acc a => insDesc key a acc) acc) (acc ++ l) := by
  induction l with
  | nil => intro acc; simp
  | cons a l ih =>
    intro acc
    simp only [List.foldl_cons]
    refine (ih (insDesc key a acc)).trans ?_
    have h1 : List.Perm (insDesc key a acc ++ l) ((a :: acc) ++ l) :=
      (insDesc_perm key a acc).append_right l
    refine h1.trans ?_
    rw [List.cons_append]
    exact List.perm_middle.symm

/-- The fold of `sortDescBy` preserves, per key value, the concatenation of
the accumulator's matches with the input's matches (stability of the whole
fold). -/
theorem sortFold_filter {α : Type} (key : α → Int) (t : Int) (l : List α) :
    ∀ acc : List α, acc.Pairwise (fun x y => key y ≤ key x) →
      (l.foldl (fun acc a => insDesc key a acc) acc).filter
          (fun x => key x == t)
        = acc.filter (fun x => key x == t) ++ l.filter (fun x => key x == t) := by
  induction l with
  | nil => intro acc hacc; simp
  | cons a l ih =>
    intro acc hacc
    simp only [List.foldl_cons]
    rw [ih _ (insDesc_sorted key a acc hacc),
      insDesc_filter key t a acc hacc, List.filter_cons]
    by_cases hat : key a = t
    · have : (key a == t) = true := by simp [hat]
      simp [hat, this]
    · have : (key a == t) = false := by simp [hat]
      simp [hat, this]

/-- Sorting with `sortDescBy` yields a descending list. -/
theorem sortDescBy_sorted {α : Type} (key : α → Int) (l : List α) :
    (sortDescBy key l).Pairwise (fun x y => key y ≤ key x) :=
  sortFold_sorted key l [] List.Pairwise.nil

/-- Sorting with `sortDescBy` permutes the input. -/
theorem sortDescBy_perm {α : Type} (key : α → Int) (l : List α) :
    List.Perm (sortDescBy key l) l := by
  simpa using sortFold_perm key l []

/-- Sorting with `sortDescBy` is stable: elements of any fixed key value appear in their
original relative order. -/
theorem sortDescBy_filter {α : Type} (key : α → Int) (t : Int) (l : List α) :
    (sortDescBy key l).filter (fun x => key x == t)
      = l.filter (fun x => key x == t) := by
  simpa using sortFold_filter key t l [] List.Pairwise.nil

/-! ## Helper lemmas: removeDuplicates -/

/-- Per url, `removeDupGo` keeps nothing if the url was already seen, and
exactly the first matching article otherwise. -/
theorem removeDupGo_filter (u : String) :
    ∀ (l : List Article) (seen : List String),
      (removeDupGo seen l).filter (fun a => a.url == u)
        = if u ∈ seen then []
          else (l.filter (fun a => a.url == u)).take 1 := by
  intro l
  induction l with
  | nil => intro seen; by_cases h : u ∈ seen <;> simp [removeDupGo, h]
  | cons a rest ih =>
    intro seen
    by_cases hseen : a.url ∈ seen
    · simp only [removeDupGo, if_pos hseen]
      rw [ih seen]
      by_cases hu : u ∈ seen
      · simp [hu]
      · have hau : ¬ (a.url = u) := fun h => hu (h ▸ hseen)
        have : (a.url == u) = false := by simp [hau]
        simp [hu, List.filter_cons, this]
    · simp only [removeDupGo, if_neg hseen]
      rw [List.filter_cons]
      by_cases hau : a.url = u
      · have : (a.url == u) = true := by simp [hau]
        simp only [this, if_pos]
        rw [List.filter_cons, this]
        by_cases hu : u ∈ seen
        · exact absurd (hau ▸ hu) hseen
        · rw [ih (a.url :: seen)]
          have : u ∈ a.url :: seen := by simp [hau]
          simp [hu, this]
      · have : (a.url == u) = false := by simp [hau]
        simp only [this, Bool.false_eq_true, if_false]
        rw [ih (a.url :: seen), List.filter_cons, this]
        by_cases hu : u ∈ seen
        · simp [hu, hau]
        · have : ¬ (u ∈ a.url :: seen) := by
            simp [hu]
            exact fun h => hau h.symm
          simp [hu, this]

/-- Deduplication yields a sublist of the input. -/
theorem removeDupGo_sublist :
    ∀ (l : List Article) (seen : List String), (removeDupGo seen l).Sublist l := by
  intro l
  induction l with
  | nil => intro seen; simp [removeDupGo]
  | cons a rest ih =>
    intro seen
    by_cases hseen : a.url ∈ seen
    · simp only [removeDupGo, if_pos hseen]
      exact (ih seen).cons a
    · simp only [removeDupGo, if_neg hseen]
      exact (ih (a.url :: seen)).cons₂ a

/-! ## Helper lemmas: search and refresh -/

/-- On a non-empty (non-whitespace) query, `search` is pagination over the
full ranked result sequence. -/
theorem search_eq_ranked (articles : List Article) (now : Int) (q : String)
    (L O : Nat) (h : ¬(q = "" ∨ strTrim q = "")) :
    search articles now q L O
      = ((rankedResults articles now q).drop O).take L := by
  simp only [search, rankedResults, if_neg h]
  rw [List.map_take, List.map_drop]

/-- A refresh whose outcomes are all failures contributes no candidate
articles. -/
theorem foldlAllNone (now : Int) :
    ∀ (pairs : List (FeedConfig × Option (List RawItem)))
      (acc : List Article), (∀ p ∈ pairs, p.2 = none) →
      pairs.foldl
        (fun acc p =>
          match p.2 with
          | some items => acc ++ items.filterMap (normalizeItem now p.1)
          | none => acc) acc = acc := by
  intro pairs
  induction pairs with
  | nil => intro acc h; rfl
  | cons p rest ih =>
    intro acc h
    have hp : p.2 = none := h p (List.mem_cons_self p rest)
    simp only [List.foldl_cons, hp]
    exact ih acc (fun q hq => h q (List.mem_cons_of_mem p hq))

/-- When every source fails, the candidate set is empty. -/
theorem candidateArticles_allNone (feeds : List FeedConfig)
    (outcomes : List (Option (List RawItem))) (now : Int)
    (h : ∀ o ∈ outcomes, o = none) :
    candidateArticles feeds outcomes now = [] := by
  unfold candidateArticles
  apply foldlAllNone
  intro p hp
  exact h p.2 (List.of_mem_zip hp).2

/-- Being none is the negation of being some. -/
theorem optIsNoneNot (o : Option (List RawItem)) : o.isNone = !o.isSome := by
  cases o <;> rfl

/-- Counting fulfilled entries through the feeds/outcomes zip equals
counting them in the outcomes list, when the lengths agree. -/
theorem zipSndCount (p : Option (List RawItem) → Bool)
    (feeds : List FeedConfig) (outcomes : List (Option (List RawItem)))
    (h : outcomes.length = feeds.length) :
    ((feeds.zip outcomes).filter (fun x => p x.2)).length
      = (outcomes.filter p).length := by
  rw [← List.countP_eq_length_filter, ← List.countP_eq_length_filter]
  have hmap : (feeds.zip outcomes).map Prod.snd = outcomes :=
    List.map_snd_zip feeds outcomes (le_of_eq h)
  calc List.countP (fun x => p x.2) (feeds.zip outcomes)
      = List.countP p ((feeds.zip outcomes).map Prod.snd) := by
        rw [List.countP_map]; rfl
    _ = List.countP p outcomes := by rw [hmap]

/-! ## Helper lemmas: the civil-calendar round-trip -/

set_option maxRecDepth 10000

/-- The numerator of `yoeOfN` is nondecreasing: stepping one day never
decreases `doe - doe/1460 + doe/36524 - doe/146096` (the only potential
drop, a multiple of 146096 that is not a multiple of 36524, cannot occur
because `36524 ∣ 146096`). -/
theorem preYoeStep (n : Nat) :
    n - n / 1460 + n / 36524 - n / 146096
      ≤ (n + 1) - (n + 1) / 1460 + (n + 1) / 36524 - (n + 1) / 146096 := by
  omega

/-- Monotonicity of `yoeOfN`. -/
theorem yoeOfN_mono : Monotone yoeOfN := by
  apply monotone_nat_of_le_succ
  intro n
  unfold yoeOfN
  exact Nat.div_le_div_right (preYoeStep n)

/-- Year-of-era of the first day of a year-of-era. -/
theorem yoeYearStart : ∀ y : Nat, y < 400 → yoeOfN (yearStartN y) = y := by
  decide

/-- Year-of-era of the last day of a year-of-era. -/
theorem yoeYearEnd : ∀ y : Nat, y < 399 → yoeOfN (yearStartN (y + 1) - 1) = y := by
  decide

/-- No year-of-era is longer than 366 days. -/
theorem yearStartGap : ∀ y : Nat, y < 400 → yearStartN (y + 1) - yearStartN y ≤ 366 := by
  decide

/-- Year starts are nondecreasing. -/
theorem yearStartMono : ∀ y : Nat, y < 400 → yearStartN y ≤ yearStartN (y + 1) := by
  decide

/-- Year-of-era of the last day of an era. -/
theorem yoeLastDay : yoeOfN 146096 = 399 := by decide

/-- The start of the last year of an era. -/
theorem yearStart399 : yearStartN 399 = 145731 := by decide

/-- Every day-of-era lands inside the year-of-era `yoeOfN` computes for it:
the year start is at or before the day, at most 365 days before it, and the
year index stays in `[0, 399]`. -/
theorem doeDecomp (doe : Nat) (h : doe < 146097) :
    yoeOfN doe ≤ 399
      ∧ yearStartN (yoeOfN doe) ≤ doe
      ∧ doe - yearStartN (yoeOfN doe) ≤ 365 := by
  have hP0 : yearStartN 0 ≤ doe := by simp [yearStartN]
  have hys_le : Nat.findGreatest (fun y => yearStartN y ≤ doe) 399 ≤ 399 :=
    Nat.findGreatest_le 399
  have hys_spec :
      yearStartN (Nat.findGreatest (fun y => yearStartN y ≤ doe) 399) ≤ doe :=
    Nat.findGreatest_spec (P := fun y => yearStartN y ≤ doe)
      (m := 0) (n := 399) (Nat.zero_le 399) hP0
  have hgreat : ∀ k, Nat.findGreatest (fun y => yearStartN y ≤ doe) 399 < k →
      k ≤ 399 → ¬ yearStartN k ≤ doe := fun k hk hk2 =>
    Nat.findGreatest_is_greatest (P := fun y => yearStartN y ≤ doe) hk hk2
  set ys := Nat.findGreatest (fun y => yearStartN y ≤ doe) 399 with hys
  have key : yoeOfN doe = ys := by
    by_cases hcase : ys = 399
    · have hstart : yearStartN 399 ≤ doe := hcase ▸ hys_spec
      have h1 : yoeOfN (yearStartN 399) ≤ yoeOfN doe := yoeOfN_mono hstart
      have h2 : yoeOfN doe ≤ yoeOfN 146096 := yoeOfN_mono (by omega)
      rw [yoeYearStart 399 (by norm_num)] at h1
      rw [yoeLastDay] at h2
      omega
    · have hlt : ys < 399 := lt_of_le_of_ne hys_le hcase
      have hub : ¬ yearStartN (ys + 1) ≤ doe := hgreat (ys + 1) (by omega) (by omega)
      have hub2 : doe ≤ yearStartN (ys + 1) - 1 := by omega
      have h1 : ys ≤ yoeOfN doe := by
        have := yoeOfN_mono hys_spec
        rwa [yoeYearStart ys (by omega)] at this
      have h2 : yoeOfN doe ≤ ys := by
        have := yoeOfN_mono hub2
        rwa [yoeYearEnd ys hlt] at this
      omega
  refine ⟨key ▸ hys_le, key ▸ hys_spec, ?_⟩
  rw [key]
  by_cases hcase : ys = 399
  · have hstart : yearStartN ys = 145731 := by rw [hcase, yearStart399]
    omega
  · have hlt : ys < 399 := lt_of_le_of_ne hys_le hcase
    have hub : ¬ yearStartN (ys + 1) ≤ doe := hgreat (ys + 1) (by omega) (by omega)
    have hgap := yearStartGap ys (by omega)
    have hmono := yearStartMono ys (by omega)
    omega

/-- Round-trip of the month/day split of a day-of-year. -/
theorem doyMpRoundtrip : ∀ doy : Nat, doy < 366 →
    mpOfMonth (monthOfDoy doy) = mpOfDoy doy
      ∧ (153 * mpOfDoy doy + 2) / 5 + dayOfDoy doy - 1 = doy
      ∧ 1 ≤ dayOfDoy doy
      ∧ (monthOfDoy doy ≤ 2 ↔ 10 ≤ mpOfDoy doy) := by
  decide

/-- Core of the calendar round-trip: for any era and any day-of-era, parsing
back the civil date printed for `era * 146097 + doe - 719468` recovers that
day count. -/
theorem mkRoundtrip (era : Int) (doe : Nat) (hdoe : doe < 146097) :
    daysFromCivil
        (if monthOfDoy (doyOfN doe) ≤ 2
         then ((yoeOfN doe : Int) + era * 400) + 1
         else (yoeOfN doe : Int) + era * 400)
        (monthOfDoy (doyOfN doe)) (dayOfDoy (doyOfN doe))
      = era * 146097 + (doe : Int) - 719468 := by
  obtain ⟨hy399, hstart, h365⟩ := doeDecomp doe hdoe
  have hdoy : doyOfN doe < 366 := by
    unfold doyOfN
    omega
  obtain ⟨hmp, hrec, hd1, hiff⟩ := doyMpRoundtrip (doyOfN doe) hdoy
  have hy2 :
      (if monthOfDoy (doyOfN doe) ≤ 2
       then (if monthOfDoy (doyOfN doe) ≤ 2
             then ((yoeOfN doe : Int) + era * 400) + 1
             else (yoeOfN doe : Int) + era * 400) - 1
       else (if monthOfDoy (doyOfN doe) ≤ 2
             then ((yoeOfN doe : Int) + era * 400) + 1
             else (yoeOfN doe : Int) + era * 400))
        = (yoeOfN doe : Int) + era * 400 := by
    by_cases hm : monthOfDoy (doyOfN doe) ≤ 2
    · rw [if_pos hm, if_pos hm]
      ring
    · rw [if_neg hm, if_neg hm]
  have hera2 : ((yoeOfN doe : Int) + era * 400) / 400 = era := by
    rw [Int.add_mul_ediv_right _ _ (by norm_num : (400 : Int) ≠ 0)]
    rw [Int.ediv_eq_zero_of_lt (by positivity)
      (by exact_mod_cast Nat.lt_of_le_of_lt hy399 (by norm_num) : (yoeOfN doe : Int) < 400)]
    ring
  have hyoe2 : (((yoeOfN doe : Int) + era * 400) - era * 400).toNat = yoeOfN doe := by
    have : ((yoeOfN doe : Int) + era * 400) - era * 400 = (yoeOfN doe : Int) := by ring
    rw [this, Int.toNat_natCast]
  unfold daysFromCivil
  rw [hy2]
  simp only []
  rw [hera2, hyoe2, hmp]
  have hdoe2 : yearStartN (yoeOfN doe)
      + ((153 * mpOfDoy (doyOfN doe) + 2) / 5 + dayOfDoy (doyOfN doe) - 1) = doe := by
    unfold doyOfN at hrec ⊢
    omega
  rw [hdoe2]

/-- Calendar round-trip: `MakeDay` inverts the civil-date decomposition for
every day count. -/
theorem daysCivilRoundtrip (z : Int) :
    daysFromCivil (civilFromDays z).1 (civilFromDays z).2.1
      (civilFromDays z).2.2 = z := by
  have hmod : (z + 719468) % 146097 = (z + 719468) - (z + 719468) / 146097 * 146097 := by
    rw [Int.emod_def]
    ring
  have h0 : 0 ≤ (z + 719468) % 146097 := Int.emod_nonneg _ (by norm_num)
  have h1 : (z + 719468) % 146097 < 146097 := Int.emod_lt_of_pos _ (by norm_num)
  have hdoeEq : (((z + 719468) - (z + 719468) / 146097 * 146097).toNat : Int)
      = (z + 719468) - (z + 719468) / 146097 * 146097 := by
    rw [Int.toNat_of_nonneg]
    omega
  have hdoeLt : ((z + 719468) - (z + 719468) / 146097 * 146097).toNat < 146097 := by
    omega
  have hkey := mkRoundtrip ((z + 719468) / 146097)
    (((z + 719468) - (z + 719468) / 146097 * 146097).toNat) hdoeLt
  unfold civilFromDays
  simp only []
  rw [hkey]
  omega

/-- Serialization round-trip for one time value: parsing the printed ISO
field tuple recovers the exact millisecond value. -/
theorem jsonDateRoundtrip (t : Int) : jsonDateToMs (msToJsonDate t) = t := by
  have h0 : 0 ≤ t % 86400000 := Int.emod_nonneg _ (by norm_num)
  have h1 : t % 86400000 < 86400000 := Int.emod_lt_of_pos _ (by norm_num)
  have hr : ((t % 86400000).toNat : Int) = t % 86400000 :=
    Int.toNat_of_nonneg h0
  have hd := daysCivilRoundtrip (t / 86400000)
  have htime : ∀ r : Nat, r < 86400000 →
      ((r / 3600000 * 60 + r % 3600000 / 60000) * 60 + r % 60000 / 1000) * 1000
        + r % 1000 = r := by
    intro r hrlt
    omega
  have hrlt : (t % 86400000).toNat < 86400000 := by omega
  unfold msToJsonDate jsonDateToMs
  simp only []
  rw [hd]
  omega

/-- Serialize-then-parse is the identity on articles. -/
theorem cacheArticleRoundtrip (a : Article) :
    cacheToArticle (articleToCache a) = a := by
  cases a
  simp [cacheToArticle, articleToCache, jsonDateRoundtrip]

/-! ## Claim theorems -/

/-- Claim C1, counterexample: with the two-article example collection, an
empty query, `limit = 1` and `offset = 1`, the code returns the FIRST
article, not the sub-sequence of the collection starting at index 1 that
the claim demands (the empty-query branch ignores the offset). -/
theorem C1_counterexample :
    search [exArt1, exArt2] exNow "" 1 1
      ≠ (([exArt1, exArt2].drop 1).take 1) := by
  decide

/-- Claim C1 as amended: for every empty or whitespace-only query, `search`
returns the first `limit` articles of the current collection, ignoring the
offset entirely. -/
theorem C1_empty_query_takes_prefix (articles : List Article) (now : Int)
    (q : String) (L O : Nat) (h : strTrim q = "") :
    search articles now q L O = articles.take L := by
  simp only [search]
  rw [if_pos (Or.inr h)]

/-- Witness for C1 at a concrete whitespace-only query. -/
theorem C1_empty_query_takes_prefix_witness :
    strTrim " " = ""
      ∧ search [exArt1, exArt2] exNow " " 1 5 = [exArt1, exArt2].take 1 :=
  ⟨by decide, C1_empty_query_takes_prefix [exArt1, exArt2] exNow " " 1 5 (by decide)⟩

/-- Claim C2, counterexample: a refresh in which the single source fails
replaces the non-empty live collection `[exArt1]` with the empty
collection — the pre-refresh collection is not preserved. -/
theorem C2_counterexample :
    (fetchAllFeeds { articles := [exArt1], feeds := [exFeed], lastUpdate := none }
        [none] exNow).1.articles ≠ [exArt1] := by
  decide

/-- Claim C2 as amended: when every source fails, the refresh replaces the
live collection with the EMPTY collection, whatever the previous collection
was (destructive overwrite; the spec's §9 design note records this source
behavior as an open question). -/
theorem C2_all_fail_clears_collection (st : AggState)
    (outcomes : List (Option (List RawItem))) (now : Int)
    (h : ∀ o ∈ outcomes, o = none) :
    (fetchAllFeeds st outcomes now).1.articles = [] := by
  simp only [fetchAllFeeds]
  rw [candidateArticles_allNone st.feeds outcomes now h]
  rfl

/-- Witness for C2 on a concrete all-failed refresh. -/
theorem C2_all_fail_clears_collection_witness :
    (∀ o ∈ ([none] : List (Option (List RawItem))), o = none)
      ∧ (fetchAllFeeds { articles := [exArt1], feeds := [exFeed], lastUpdate := none }
          [none] exNow).1.articles = [] :=
  ⟨by decide,
   C2_all_fail_clears_collection
     { articles := [exArt1], feeds := [exFeed], lastUpdate := none }
     [none] exNow (by decide)⟩

/-- Claim C5: deduplication keeps, for every url, exactly the first
candidate-order occurrence (later duplicates, from any source, are
dropped), and the kept articles stay in candidate order (sublist). -/
theorem C5_dedup_first_occurrence :
    ∀ (l : List Article) (u : String),
      (removeDuplicates l).filter (fun a => a.url == u)
          = (l.filter (fun a => a.url == u)).take 1
        ∧ (removeDuplicates l).Sublist l := by
  intro l u
  refine ⟨?_, removeDupGo_sublist l []⟩
  have h := removeDupGo_filter u l []
  simpa [removeDuplicates] using h

/-- Claim C6: after every refresh the live collection is sorted descending
by publication timestamp, and the sort is stable: per timestamp, articles
appear exactly as in the deduplicated candidate list, which itself is a
sublist of the candidate list (so ties keep their candidate order). -/
theorem C6_sorted_and_stable :
    ∀ (st : AggState) (outcomes : List (Option (List RawItem))) (now : Int),
      ((fetchAllFeeds st outcomes now).1.articles).Pairwise
          (fun a b => b.pubDate ≤ a.pubDate)
        ∧ (∀ t : Int,
            ((fetchAllFeeds st outcomes now).1.articles).filter
                (fun a => a.pubDate == t)
              = (removeDuplicates (candidateArticles st.feeds outcomes now)).filter
                  (fun a => a.pubDate == t))
        ∧ (removeDuplicates (candidateArticles st.feeds outcomes now)).Sublist
            (candidateArticles st.feeds outcomes now) := by
  intro st outcomes now
  have harts : (fetchAllFeeds st outcomes now).1.articles
      = sortDescBy (fun a => a.pubDate)
          (removeDuplicates (candidateArticles st.feeds outcomes now)) := rfl
  refine ⟨?_, ?_, removeDupGo_sublist _ _⟩
  · rw [harts]
    exact sortDescBy_sorted _ _
  · intro t
    rw [harts]
    exact sortDescBy_filter _ t _

/-- Claim C10: `search` is a pure read — the aggregator state (articles,
feeds, lastUpdate) after the call is the state before it, and the result is
the pure function of the live collection. -/
theorem C10_search_frame :
    ∀ (st : AggState) (now : Int) (q : String) (L O : Nat),
      (searchSt st now q L O).2.articles = st.articles
        ∧ (searchSt st now q L O).2.feeds = st.feeds
        ∧ (searchSt st now q L O).2.lastUpdate = st.lastUpdate
        ∧ (searchSt st now q L O).1 = search st.articles now q L O := by
  intro st now q L O
  exact ⟨rfl, rfl, rfl, rfl⟩

/-- Claim C3, counterexample: on the example article and the query
`"ai ai"`, the code scores 26 (each of the two identical query words
contributes again: 2·10 title + 2·3 keyword), while the claim's
per-DISTINCT-word formula gives 13. -/
theorem C3_counterexample :
    scoreArticle exNow "ai ai" exArt1 = 26
      ∧ specScoreDistinct exNow "ai ai" exArt1 = 13
      ∧ scoreArticle exNow "ai ai" exArt1 ≠ specScoreDistinct exNow "ai ai" exArt1 := by
  decide

/-- Claim C3 as amended: the score equals the claimed sum with query words
counted PER OCCURRENCE in the split query (not per distinct word); articles
whose score is not positive are excluded from every non-empty-query search;
and on the two-article example collection `search "ai"` returns exactly the
AI-breakthrough article. -/
theorem C3_score_formula :
    (∀ (now : Int) (q : String) (a : Article),
        scoreArticle now q a = specScorePerWord now q a)
      ∧ (∀ (articles : List Article) (now : Int) (q : String) (L O : Nat)
            (a : Article), a ∈ search articles now q L O →
            ¬(q = "" ∨ strTrim q = "") → 0 < scoreArticle now q a)
      ∧ search [exArt1, exArt2] exNow "ai" 20 0 = [exArt1] := by
  refine ⟨?_, ?_, by decide⟩
  · intro now q a
    unfold scoreArticle specScorePerWord
    simp only []
    rw [foldlScoreCount, foldlScoreCount, foldlKeywordCount]
    split_ifs <;> push_cast <;> ring
  · intro articles now q L O a hmem hq
    rw [search_eq_ranked articles now q L O hq] at hmem
    have h1 : a ∈ rankedResults articles now q :=
      List.mem_of_mem_drop (List.mem_of_mem_take hmem)
    unfold rankedResults at h1
    simp only [] at h1
    rw [List.mem_map] at h1
    obtain ⟨p, hp, rfl⟩ := h1
    have hp2 : p ∈ (articles.map
        (fun a => (a, scoreArticle now q a))).filter (fun p => 0 < p.2) :=
      (sortDescBy_perm (fun p => p.2) _).mem_iff.mp hp
    rw [List.mem_filter] at hp2
    obtain ⟨hscored, hpos⟩ := hp2
    rw [List.mem_map] at hscored
    obtain ⟨x, hx, hpx⟩ := hscored
    have hsc : p.2 = scoreArticle now q p.1 := by
      rw [← hpx]
    rw [← hsc]
    simpa using hpos

/-- Witness for C3: the amended formula and the exclusion bound evaluated at
the example article and query. -/
theorem C3_score_formula_witness :
    0 < scoreArticle exNow "ai" exArt1
      ∧ scoreArticle exNow "ai" exArt1 = specScorePerWord exNow "ai" exArt1 :=
  ⟨C3_score_formula.2.1 [exArt1, exArt2] exNow "ai" 20 0 exArt1 (by decide) (by decide),
   C3_score_formula.1 exNow "ai" exArt1⟩

/-- Claim C4, counterexample: with an empty query, the two consecutive
pages `(limit 1, offset 0)` and `(limit 1, offset 1)` both return the first
article — their concatenation is not the first-two-element slice of the
result sequence, so pages overlap (the empty-query branch ignores the
offset). -/
theorem C4_counterexample :
    search [exArt1, exArt2] exNow "" 1 0 ++ search [exArt1, exArt2] exNow "" 1 1
      ≠ (([exArt1, exArt2].drop 0).take 2) := by
  decide

/-- Claim C4 as amended: for every NON-empty (non-whitespace) query,
consecutive pages concatenate to the length-2L slice of the full ranked
result sequence starting at the offset — no gaps, no overlaps. -/
theorem C4_pagination (articles : List Article) (now : Int) (q : String)
    (L O : Nat) (h : ¬(q = "" ∨ strTrim q = "")) :
    search articles now q L O ++ search articles now q L (O + L)
      = ((rankedResults articles now q).drop O).take (L + L) := by
  rw [search_eq_ranked articles now q L O h,
    search_eq_ranked articles now q L (O + L) h]
  rw [List.take_add]
  congr 1
  rw [List.drop_drop, Nat.add_comm]

/-- Witness for C4 at a concrete query and page size. -/
theorem C4_pagination_witness :
    ¬(("ai" : String) = "" ∨ strTrim "ai" = "")
      ∧ search [exArt1, exArt2] exNow "ai" 1 0
            ++ search [exArt1, exArt2] exNow "ai" 1 1
          = ((rankedResults [exArt1, exArt2] exNow "ai").drop 0).take (1 + 1) :=
  ⟨by decide, C4_pagination [exArt1, exArt2] exNow "ai" 1 0 (by decide)⟩

/-- Claim C7: image extraction follows the strict stage priority of the
code — a media:content hit wins; otherwise a media:thumbnail url; otherwise
a qualifying enclosure; otherwise the first `<img src>` of the
content/description HTML (which is `none` when there is no match). -/
theorem C7_image_priority :
    ∀ (item : RawItem) (u : String),
      (mediaContentImage item = some u → extractImageFromItem item = some u)
        ∧ (mediaContentImage item = none → mediaThumbnailImage item = some u →
            extractImageFromItem item = some u)
        ∧ (mediaContentImage item = none → mediaThumbnailImage item = none →
            enclosureImage item = some u → extractImageFromItem item = some u)
        ∧ (mediaContentImage item = none → mediaThumbnailImage item = none →
            enclosureImage item = none →
            extractImageFromItem item = htmlImage item) := by
  intro item u
  refine ⟨?_, ?_, ?_, ?_⟩
  · intro h1
    unfold extractImageFromItem
    rw [h1]
  · intro h1 h2
    unfold extractImageFromItem
    rw [h1, h2]
  · intro h1 h2 h3
    unfold extractImageFromItem
    rw [h1, h2, h3]
  · intro h1 h2 h3
    unfold extractImageFromItem
    rw [h1, h2, h3]

/-- Witness for C7: the spec's worked example — an item with both a
media:thumbnail and an `<img>` inside its description yields the thumbnail
url, although the fallback stage would have found the inline image. -/
theorem C7_image_priority_witness :
    mediaThumbnailImage exThumbItem = some "http://example.org/thumb.jpg"
      ∧ htmlImage exThumbItem = some "http://example.org/inline.png"
      ∧ extractImageFromItem exThumbItem = some "http://example.org/thumb.jpg" :=
  ⟨by decide, by decide,
   (C7_image_priority exThumbItem "http://example.org/thumb.jpg").2.1
     (by decide) (by decide)⟩

/-- Claim C8: saving the collection to the cache and loading it back
reproduces every article field exactly, timestamps (at the millisecond
precision of a JavaScript Date) included. -/
theorem C8_cache_roundtrip :
    ∀ (articles : List Article) (lastUpdate : Option Int),
      (loadFromFile (saveToFile articles lastUpdate)).1 = articles := by
  intro arts lu
  unfold loadFromFile saveToFile
  simp only [List.map_map]
  have h2 : arts.map (cacheToArticle ∘ articleToCache) = arts.map id :=
    List.map_congr_left (fun a _ => cacheArticleRoundtrip a)
  rw [h2, List.map_id]

/-- Claim C9, counterexample: on an EMPTY feed registry the refresh does
not fail — it resolves normally with zero success and zero error counts
(and an empty collection), while the claim demands failure exactly there. -/
theorem C9_counterexample :
    fetchAllFeedsE { articles := [], feeds := [], lastUpdate := none } [] exNow
      = Except.ok
          ({ articles := [], feeds := [], lastUpdate := some exNow }, 0, 0) := by
  rfl

/-- Claim C9 as amended: `fetchAllFeeds` NEVER fails — for every registry,
empty or not, it resolves, reporting the per-source success and failure
counts, which sum to the registry size. -/
theorem C9_never_fails (st : AggState)
    (outcomes : List (Option (List RawItem))) (now : Int)
    (h : outcomes.length = st.feeds.length) :
    (fetchAllFeedsE st outcomes now).isOk = true
      ∧ (fetchAllFeeds st outcomes now).2.1
          = (outcomes.filter Option.isSome).length
      ∧ (fetchAllFeeds st outcomes now).2.2
          = (outcomes.filter Option.isNone).length
      ∧ (fetchAllFeeds st outcomes now).2.1 + (fetchAllFeeds st outcomes now).2.2
          = st.feeds.length := by
  have hs : (fetchAllFeeds st outcomes now).2.1
      = ((st.feeds.zip outcomes).filter (fun p => p.2.isSome)).length := rfl
  have he : (fetchAllFeeds st outcomes now).2.2
      = ((st.feeds.zip outcomes).filter (fun p => p.2.isNone)).length := rfl
  have hs2 := zipSndCount Option.isSome st.feeds outcomes h
  have he2 := zipSndCount Option.isNone st.feeds outcomes h
  have hsum : (outcomes.filter Option.isSome).length
      + (outcomes.filter Option.isNone).length = outcomes.length := by
    rw [← List.countP_eq_length_filter, ← List.countP_eq_length_filter]
    have hcongr : List.countP Option.isNone outcomes
        = List.countP (fun a => decide ¬(Option.isSome a = true)) outcomes :=
      List.countP_congr (fun o _ => by cases o <;> rfl)
    rw [hcongr]
    exact (List.length_eq_countP_add_countP Option.isSome outcomes).symm
  refine ⟨rfl, ?_, ?_, ?_⟩
  · rw [hs]
    exact hs2
  · rw [he]
    exact he2
  · rw [hs, he, hs2, he2, hsum, h]

/-- Witness for C9 on a concrete two-source registry with one fulfilled and
one rejected fetch. -/
theorem C9_never_fails_witness :
    ([some [], none] : List (Option (List RawItem))).length
        = ([exFeed, exFeed] : List FeedConfig).length
      ∧ (fetchAllFeedsE
          { articles := [], feeds := [exFeed, exFeed], lastUpdate := none }
          [some [], none] exNow).isOk = true :=
  ⟨by decide,
   (C9_never_fails { articles := [], feeds := [exFeed, exFeed], lastUpdate := none }
     [some [], none] exNow (by decide)).1⟩
